import Mathlib

/-!
# Verification of the atomic-lang-model minimalist-grammar engine

Shallow embedding of `src/atomic-lang-model/src/lib.rs`. Rust `String`s are
modelled as `List Char` (`Str`); Rust `Vec<T>` as `List T`; fallible
functions return `Except DerivationError _`. Functions that mutate a
`Workspace` in place are modelled as returning the final workspace state
together with the outcome, so that partial mutation before an error is
observable, exactly as in the source.
-/

set_option maxRecDepth 4096

namespace AtomicLang

/-- Rust `String`, modelled as a list of characters. -/
abbrev Str := List Char

/-- Syntactic category labels (`enum Category`). -/
inductive Category where
  | N | V | D | C | S | NP | VP | DP | CP
  | Event | Command | State | Context
deriving DecidableEq, Repr

/-- Feature types for Minimalist Grammar (`enum Feature`).
Movement indices are `u8` in the source but are only ever compared for
equality, so `Nat` is a faithful model. -/
inductive Feature where
  | Cat : Category → Feature
  | Sel : Category → Feature
  | Pos : Nat → Feature
  | Neg : Nat → Feature
  | Ctx : Str → Feature
deriving DecidableEq, Repr

/-- Rust `Feature::is_positive`. -/
def Feature.is_positive : Feature → Bool
  | .Pos _ => true
  | _ => false

/-- Rust `Feature::is_negative`. -/
def Feature.is_negative : Feature → Bool
  | .Neg _ => true
  | _ => false

/-- Rust `Feature::movement_index`. -/
def Feature.movement_index : Feature → Option Nat
  | .Pos i => some i
  | .Neg i => some i
  | _ => none

/-- Rust `matches!(f, Feature::Sel(_))`. -/
def isSel : Feature → Bool
  | .Sel _ => true
  | _ => false

/-- Rust `matches!(f, Feature::Cat(_))`. -/
def isCat : Feature → Bool
  | .Cat _ => true
  | _ => false

/-- Rust `matches!(f, Feature::Pos(idx) if *idx == movement_idx)`. -/
def isPosIdx (k : Nat) : Feature → Bool
  | .Pos i => decide (i = k)
  | _ => false

/-- Rust `matches!(f, Feature::Neg(idx) if *idx == movement_idx)`. -/
def isNegIdx (k : Nat) : Feature → Bool
  | .Neg i => decide (i = k)
  | _ => false

/-- Lexical item (`struct LexItem`). -/
structure LexItem where
  phon : Str
  feats : List Feature
deriving DecidableEq, Repr

/-- Syntactic object in derivation (`struct SyntacticObject`), an owned
tree: label, unchecked features, children, optional phonological content. -/
inductive SyntacticObject where
  | node (label : Category) (features : List Feature)
      (children : List SyntacticObject) (phon : Option Str)

/-- Field `label`. -/
def SyntacticObject.label : SyntacticObject → Category
  | .node l _ _ _ => l

/-- Field `features`. -/
def SyntacticObject.features : SyntacticObject → List Feature
  | .node _ fs _ _ => fs

/-- Field `children`. -/
def SyntacticObject.children : SyntacticObject → List SyntacticObject
  | .node _ _ ch _ => ch

/-- Field `phon`. -/
def SyntacticObject.phon : SyntacticObject → Option Str
  | .node _ _ _ p => p

instance : Inhabited SyntacticObject := ⟨.node .N [] [] none⟩

/-- First `Feature::Cat` in a feature bundle, used by `from_lex`. -/
def firstCatLabel (fs : List Feature) : Option Category :=
  fs.findSome? fun f =>
    match f with
    | .Cat c => some c
    | _ => none

/-- Rust `SyntacticObject::from_lex`: leaf whose label is the first `Cat`
feature of the item, defaulting to `N`. -/
def SyntacticObject.from_lex (item : LexItem) : SyntacticObject :=
  .node ((firstCatLabel item.feats).getD .N) item.feats [] (some item.phon)

/-- Rust `SyntacticObject::internal`: internal node, no phonological content. -/
def SyntacticObject.internal (label : Category) (features : List Feature)
    (children : List SyntacticObject) : SyntacticObject :=
  .node label features children none

/-- Rust `SyntacticObject::is_complete`. -/
def SyntacticObject.is_complete (o : SyntacticObject) : Bool :=
  o.features.isEmpty

/-- Rust struct-update `SyntacticObject { features: fs, ..o }`. -/
def setFeatures : SyntacticObject → List Feature → SyntacticObject
  | .node l _ ch p, fs => .node l fs ch p

/-- Errors during derivation (`enum DerivationError`). -/
inductive DerivationError where
  | NoValidOperations
  | MemoryLimitExceeded
  | FeatureMismatch
  | EmptyWorkspace
  | InvalidOperation
  | UnknownToken : Str → DerivationError
deriving DecidableEq, Repr

/-- Derivation workspace (`struct Workspace`). -/
structure Workspace where
  items : List SyntacticObject
  memory_limit : Nat
  step_count : Nat

/-- Rust `Workspace::is_successful`: exactly one item and it is complete. -/
def Workspace.is_successful (ws : Workspace) : Bool :=
  decide (ws.items.length = 1) && (ws.items.getD 0 default).is_complete

mutual

/-- Rust `Workspace::object_size`: node count of a syntactic object. -/
def objectSize : SyntacticObject → Nat
  | .node _ _ ch _ => 1 + sizeList ch

/-- Sum of `objectSize` over a list. -/
def sizeList : List SyntacticObject → Nat
  | [] => 0
  | o :: os => objectSize o + sizeList os

end

/-- Rust `Workspace::memory_usage`: sum of node counts over all items. -/
def Workspace.memory_usage (ws : Workspace) : Nat :=
  sizeList ws.items

/-- Rust `merge`: if the first `Sel` feature of `a` names the category carried by
the first `Cat` feature of `b`, build an internal node labelled by `a`,
whose features are `a`'s features with all `Sel` features removed followed
by `b`'s features with all `Cat` features removed, and whose children are
`[a, b]`; otherwise fail with `FeatureMismatch`. -/
def merge (a b : SyntacticObject) : Except DerivationError SyntacticObject :=
  match a.features.find? isSel with
  | some (Feature.Sel required_cat) =>
    match b.features.find? isCat with
    | some (Feature.Cat actual_cat) =>
      if required_cat = actual_cat then
        Except.ok (SyntacticObject.internal a.label
          (a.features.filter (fun f => ! isSel f)
            ++ b.features.filter (fun f => ! isCat f))
          [a, b])
      else Except.error DerivationError.FeatureMismatch
    | _ => Except.error DerivationError.FeatureMismatch
  | _ => Except.error DerivationError.FeatureMismatch

/-- Rust `can_merge`: some `Sel` feature of `a` has a matching `Cat` feature
in `b` (existential on both sides, unlike `merge`). -/
def can_merge (a b : SyntacticObject) : Bool :=
  a.features.any fun f =>
    match f with
    | Feature.Sel required_cat =>
      b.features.any fun g =>
        match g with
        | Feature.Cat actual_cat => decide (actual_cat = required_cat)
        | _ => false
    | _ => false

/-- The inner loop of `find_mergeable_pairs` for a fixed `i`: all `j ≠ i`
in range, ascending, with `can_merge items[i] items[j]`. -/
def pairsFor (items : List SyntacticObject) (i : Nat) : List (Nat × Nat) :=
  ((List.range items.length).filter
    (fun j => !decide (i = j) && can_merge (items.getD i default) (items.getD j default))).map
    (fun j => (i, j))

/-- Rust `find_mergeable_pairs`: all ordered pairs `(i, j)`, `i ≠ j`, with
`can_merge items[i] items[j]`, ascending in `i` then `j`. -/
def find_mergeable_pairs (items : List SyntacticObject) : List (Nat × Nat) :=
  ((List.range items.length).map (pairsFor items)).flatten

mutual

/-- Rust `find_movement_target`: first node in pre-order (self before children)
carrying a `Neg` feature with the given index. -/
def find_movement_target : SyntacticObject → Nat → Option SyntacticObject
  | .node l fs ch p, k =>
    if fs.any (isNegIdx k) then some (.node l fs ch p)
    else findTargetList ch k

/-- Pre-order search over a list of children. -/
def findTargetList : List SyntacticObject → Nat → Option SyntacticObject
  | [], _ => none
  | o :: os, k =>
    match find_movement_target o k with
    | some t => some t
    | none => findTargetList os k

end

/-- Rust `extract_and_move`: new root labelled by `obj`, features of `obj` with
every `Pos` feature of index `k` removed, children `[target', obj]` where
`target'` is `target` with every `Neg` feature of index `k` removed. -/
def extract_and_move (obj target : SyntacticObject) (k : Nat) :
    Except DerivationError SyntacticObject :=
  Except.ok (SyntacticObject.internal obj.label
    (obj.features.filter (fun f => ! isPosIdx k f))
    [setFeatures target (target.features.filter (fun f => ! isNegIdx k f)), obj])

/-- Rust `move_operation`: find the first positive feature on `obj`, search the
subtree for a matching negative feature, and extract-and-move; fail with
`NoValidOperations` otherwise. -/
def move_operation (obj : SyntacticObject) : Except DerivationError SyntacticObject :=
  match obj.features.find? Feature.is_positive with
  | some f =>
    match f.movement_index with
    | some k =>
      match find_movement_target obj k with
      | some target => extract_and_move obj target k
      | none => Except.error DerivationError.NoValidOperations
    | none => Except.error DerivationError.NoValidOperations
  | none => Except.error DerivationError.NoValidOperations

/-- The move loop of `step`: replace the first item on which
`move_operation` succeeds; `none` when no item can move. -/
def moveLoop : List SyntacticObject → Option (List SyntacticObject)
  | [] => none
  | o :: os =>
    match move_operation o with
    | Except.ok m => some (m :: os)
    | Except.error _ =>
      match moveLoop os with
      | some os2 => some (o :: os2)
      | none => none

/-- Rust `step`: one derivation step. The source mutates the workspace in place
and returns `Result<(), DerivationError>`; the model returns the final
workspace state together with the outcome, so mutations that precede an
error (step counter increment, removal of the chosen pair) are preserved. -/
def step (ws : Workspace) : Workspace × Except DerivationError Unit :=
  if ws.items.isEmpty then (ws, Except.error DerivationError.EmptyWorkspace)
  else
    let ws1 : Workspace := ⟨ws.items, ws.memory_limit, ws.step_count + 1⟩
    if ws1.memory_limit < ws1.memory_usage then
      (ws1, Except.error DerivationError.MemoryLimitExceeded)
    else
      match find_mergeable_pairs ws1.items with
      | (i, j) :: _ =>
        let a := ws1.items.getD (max i j) default
        let items1 := ws1.items.eraseIdx (max i j)
        let b := items1.getD (min i j) default
        let items2 := items1.eraseIdx (min i j)
        match merge a b with
        | Except.ok merged =>
          (⟨items2 ++ [merged], ws1.memory_limit, ws1.step_count⟩, Except.ok ())
        | Except.error e =>
          (⟨items2, ws1.memory_limit, ws1.step_count⟩, Except.error e)
      | [] =>
        match moveLoop ws1.items with
        | some items2 => (⟨items2, ws1.memory_limit, ws1.step_count⟩, Except.ok ())
        | none => (ws1, Except.error DerivationError.NoValidOperations)

/-- The check `derive` performs after its loop ends: return the single
complete object if present, else fail with `NoValidOperations`. -/
def finishDerive (ws : Workspace) : Workspace × Except DerivationError SyntacticObject :=
  if ws.is_successful then (ws, Except.ok (ws.items.getD 0 default))
  else (ws, Except.error DerivationError.NoValidOperations)

/-- Rust `derive`: run up to `maxSteps` derivation steps. Returns the single
complete object as soon as the workspace holds exactly one; a step failing
with `NoValidOperations` breaks the loop (stuck, not erroring); any other
step failure propagates; after the loop the final check of `finishDerive`
applies. -/
def derive : Workspace → Nat → Workspace × Except DerivationError SyntacticObject
  | ws, 0 => finishDerive ws
  | ws, Nat.succ fuel =>
    if ws.is_successful then (ws, Except.ok (ws.items.getD 0 default))
    else
      match step ws with
      | (ws2, Except.ok _) => derive ws2 fuel
      | (ws2, Except.error e) =>
        if e = DerivationError.NoValidOperations then finishDerive ws2
        else (ws2, Except.error e)

/-- Rust `test_lexicon`: the standard test lexicon. -/
def test_lexicon : List LexItem :=
  [ ⟨"the".toList, [Feature.Cat .D, Feature.Sel .N]⟩,
    ⟨"a".toList, [Feature.Cat .D, Feature.Sel .N]⟩,
    ⟨"student".toList, [Feature.Cat .N]⟩,
    ⟨"tutor".toList, [Feature.Cat .N]⟩,
    ⟨"teacher".toList, [Feature.Cat .N]⟩,
    ⟨"who".toList, [Feature.Cat .C, Feature.Sel .S]⟩,
    ⟨"that".toList, [Feature.Cat .C, Feature.Sel .S]⟩,
    ⟨"said".toList, [Feature.Cat .V, Feature.Sel .DP, Feature.Pos 1]⟩,
    ⟨"thinks".toList, [Feature.Cat .V, Feature.Sel .DP]⟩,
    ⟨"left".toList, [Feature.Cat .V]⟩,
    ⟨"smiled".toList, [Feature.Cat .V]⟩,
    ⟨"arrived".toList, [Feature.Cat .V]⟩ ]

/-- Accumulator phase of whitespace splitting: `acc` holds the current
token reversed. Models Rust `split_whitespace` restricted to the space
character, the only whitespace these strings contain. -/
def splitWSAux : List Char → List Char → List Str
  | [], acc => if acc.isEmpty then [] else [acc.reverse]
  | c :: cs, acc =>
    if c = ' ' then
      if acc.isEmpty then splitWSAux cs [] else acc.reverse :: splitWSAux cs []
    else splitWSAux cs (c :: acc)

/-- Rust `str::split_whitespace`: maximal runs of non-space characters. -/
def splitWS (s : Str) : List Str :=
  splitWSAux s []

/-- Rust `Vec::join(" ")` on strings. -/
def joinSp : List Str → Str
  | [] => []
  | [t] => t
  | t :: ts => t ++ ' ' :: joinSp ts

/-- Rust `generate_an_bn`: `n` tokens `"a"` then `n` tokens `"b"`, single-space
separated; empty for `n = 0`. -/
def generate_an_bn (n : Nat) : Str :=
  if n = 0 then []
  else joinSp (List.replicate n "a".toList) ++ ' ' :: joinSp (List.replicate n "b".toList)

/-- Rust `is_an_bn_pattern`: tokens split on whitespace are `n` copies of `"a"`
followed by `n` copies of `"b"`; the empty token list is accepted. -/
def is_an_bn_pattern (s : Str) : Bool :=
  let tokens := splitWS s
  if tokens.isEmpty then true
  else
    let n := tokens.length / 2
    if tokens.length ≠ 2 * n then false
    else
      ((tokens.take n).all fun t => decide (t = "a".toList)) &&
      ((tokens.drop n).all fun t => decide (t = "b".toList))

/-- Rust `generate_pattern`: only the `"an_bn"` pattern name is supported. -/
def generate_pattern (pattern : Str) (n : Nat) : Except DerivationError Str :=
  if pattern = "an_bn".toList then Except.ok (generate_an_bn n)
  else Except.error DerivationError.InvalidOperation

/-- Token lookup phase of `parse_sentence`: builds the leaf objects in
order, failing with `UnknownToken` at the first token absent from the
lexicon (first lexicon match wins). -/
def lookupToks : List Str → List LexItem → Except DerivationError (List SyntacticObject)
  | [], _ => Except.ok []
  | t :: ts, lexicon =>
    match lexicon.find? (fun item => decide (item.phon = t)) with
    | some item =>
      match lookupToks ts lexicon with
      | Except.ok objs => Except.ok (SyntacticObject.from_lex item :: objs)
      | Except.error e => Except.error e
    | none => Except.error (DerivationError.UnknownToken t)

/-- Rust `parse_sentence`: tokenize on whitespace, look each token up in the
lexicon, seed a workspace with memory limit 4096, and run `derive` with a
step budget of 100. -/
def parse_sentence (sentence : Str) (lexicon : List LexItem) :
    Except DerivationError SyntacticObject :=
  match lookupToks (splitWS sentence) lexicon with
  | Except.error e => Except.error e
  | Except.ok objs => (derive ⟨objs, 4096, 0⟩ 100).2

mutual

/-- All nodes of a syntactic object in pre-order (self before children). -/
def subtreeNodes : SyntacticObject → List SyntacticObject
  | .node l fs ch p => .node l fs ch p :: subtreeList ch

/-- Pre-order nodes of a list of trees, in order. -/
def subtreeList : List SyntacticObject → List SyntacticObject
  | [] => []
  | o :: os => subtreeNodes o ++ subtreeList os

end

/-! ## Concrete objects used in counterexamples and witnesses -/

/-- A leaf carrying only `Sel N`. -/
def selN_obj : SyntacticObject := .node .D [Feature.Sel .N] [] none

/-- A leaf carrying only `Cat N`. -/
def catN_obj : SyntacticObject := .node .N [Feature.Cat .N] [] none

/-- A leaf for "the": `Cat D` then `Sel N`, as in the test lexicon. -/
def theD_obj : SyntacticObject :=
  .node .D [Feature.Cat .D, Feature.Sel .N] [] none

/-- A leaf with two selector features, `Sel N` then `Sel V`. -/
def selSel_obj : SyntacticObject :=
  .node .D [Feature.Sel .N, Feature.Sel .V] [] none

/-- A leaf with two category features, `Cat N` then `Cat V`. -/
def catCat_obj : SyntacticObject :=
  .node .N [Feature.Cat .N, Feature.Cat .V] [] none

/-- A leaf whose first category feature is `Cat V` but which also carries
`Cat N`. -/
def catVN_obj : SyntacticObject :=
  .node .V [Feature.Cat .V, Feature.Cat .N] [] none

/-- A leaf with duplicated `Pos 1` features and a `Neg 1` feature. -/
def posPosNeg_obj : SyntacticObject :=
  .node .D [Feature.Pos 1, Feature.Pos 1, Feature.Neg 1] [] none

/-- A leaf with no features at all. -/
def noFeat_obj : SyntacticObject := .node .D [] [] none

/-- Workspace whose first item selects its second item: the combinable
pair is `(0, 1)`, but `step` hands `merge` the operands in swapped roles. -/
def wsMismatch : Workspace := ⟨[selN_obj, catN_obj], 100, 0⟩

/-- Workspace whose second item selects its first: the combinable pair is
`(1, 0)` and the merge inside `step` succeeds. -/
def wsMergeOk : Workspace := ⟨[catN_obj, theD_obj], 10, 0⟩

/-! ## Helper lemmas -/

/-- Lemma: `finishDerive` never changes the workspace. -/
theorem finishDerive_fst (ws : Workspace) : (finishDerive ws).1 = ws := by
  unfold finishDerive
  split <;> rfl

/-- Erasing at a strictly larger index leaves smaller positions intact. -/
theorem getD_eraseIdx_lt (l : List SyntacticObject) (m M : Nat) (h : m < M) :
    (l.eraseIdx M).getD m default = l.getD m default := by
  induction l generalizing m M with
  | nil => rfl
  | cons c cs ih =>
    cases M with
    | zero => exact absurd h (Nat.not_lt_zero m)
    | succ M =>
      cases m with
      | zero => rfl
      | succ m => exact ih m M (Nat.lt_of_succ_lt_succ h)

/-- Leaves have node count one each. -/
theorem sizeList_of_leaves (items : List SyntacticObject)
    (h : ∀ o ∈ items, o.children = []) : sizeList items = items.length := by
  induction items with
  | nil => rfl
  | cons o os ih =>
    have ho : o.children = [] := h o (List.mem_cons_self o os)
    have hsz : objectSize o = 1 := by
      cases o with
      | node l fs ch p =>
        simp only [SyntacticObject.children] at ho
        subst ho
        rfl
    simp only [sizeList, hsz, List.length_cons,
      ih (fun x hx => h x (List.mem_cons_of_mem o hx))]
    omega

/-- Lemma: `step` on an empty workspace fails with `EmptyWorkspace`, untouched. -/
theorem step_empty (ws : Workspace) (h : ws.items = []) :
    step ws = (ws, Except.error DerivationError.EmptyWorkspace) := by
  unfold step
  rw [if_pos (by simp [h])]

/-- Lemma: `step` on a nonempty workspace over the memory limit fails with
`MemoryLimitExceeded`, with only the step counter changed. -/
theorem step_mem_fail (ws : Workspace) (h1 : ws.items ≠ [])
    (h2 : ws.memory_limit < ws.memory_usage) :
    step ws = (⟨ws.items, ws.memory_limit, ws.step_count + 1⟩,
      Except.error DerivationError.MemoryLimitExceeded) := by
  unfold step
  rw [if_neg (by simp [h1])]
  exact if_pos h2

/-- Lemma: `step` on a nonempty workspace increments the counter by exactly one. -/
theorem step_count_succ (ws : Workspace) (h : ws.items ≠ []) :
    (step ws).1.step_count = ws.step_count + 1 := by
  unfold step
  rw [if_neg (by simp [h])]
  dsimp only
  split
  · rfl
  · split
    · split <;> rfl
    · split <;> rfl

/-- Lemma: `step` increments the counter by at most one. -/
theorem step_count_le (ws : Workspace) :
    (step ws).1.step_count ≤ ws.step_count + 1 := by
  by_cases h : ws.items = []
  · rw [step_empty ws h]
    exact Nat.le_succ _
  · exact Nat.le_of_eq (step_count_succ ws h)

/-- Lemma: `derive` performs at most `n` steps. -/
theorem derive_count (n : Nat) : ∀ ws : Workspace,
    (derive ws n).1.step_count ≤ ws.step_count + n := by
  induction n with
  | zero =>
    intro ws
    rw [derive, finishDerive_fst]
    omega
  | succ n ih =>
    intro ws
    rw [derive]
    split
    · exact Nat.le_add_right _ _
    · rcases hstep : step ws with ⟨ws2, r⟩
      have hc : ws2.step_count ≤ ws.step_count + 1 := by
        have := step_count_le ws
        rw [hstep] at this
        exact this
      cases r with
      | ok u =>
        calc (derive ws2 n).1.step_count ≤ ws2.step_count + n := ih ws2
          _ ≤ ws.step_count + (n + 1) := by omega
      | error e =>
        dsimp only
        split
        · rw [finishDerive_fst]
          omega
        · dsimp only
          omega

/-- A feature picked out by `isSel` is a `Sel`. -/
theorem exists_of_find_isSel {fs : List Feature} {f : Feature}
    (h : fs.find? isSel = some f) : ∃ c, f = Feature.Sel c := by
  have hp := List.find?_some h
  cases f <;> first | exact ⟨_, rfl⟩ | simp [isSel] at hp

/-- A feature picked out by `isCat` is a `Cat`. -/
theorem exists_of_find_isCat {fs : List Feature} {f : Feature}
    (h : fs.find? isCat = some f) : ∃ c, f = Feature.Cat c := by
  have hp := List.find?_some h
  cases f <;> first | exact ⟨_, rfl⟩ | simp [isCat] at hp

/-- A feature picked out by `Feature.is_positive` is a `Pos`. -/
theorem exists_of_find_is_positive {fs : List Feature} {f : Feature}
    (h : fs.find? Feature.is_positive = some f) : ∃ k, f = Feature.Pos k := by
  have hp := List.find?_some h
  cases f <;> first | exact ⟨_, rfl⟩ | simp [Feature.is_positive] at hp

/-- Lemma: `merge` equation: no selector on the left operand. -/
theorem merge_eq_no_sel (a b : SyntacticObject)
    (hsel : a.features.find? isSel = none) :
    merge a b = Except.error DerivationError.FeatureMismatch := by
  unfold merge
  rw [hsel]

/-- Lemma: `merge` equation: left operand has a selector, right has no category. -/
theorem merge_eq_no_cat (a b : SyntacticObject) (c : Category)
    (hsel : a.features.find? isSel = some (Feature.Sel c))
    (hcat : b.features.find? isCat = none) :
    merge a b = Except.error DerivationError.FeatureMismatch := by
  unfold merge
  rw [hsel, hcat]

/-- Lemma: `merge` equation: first selector against first category. -/
theorem merge_eq_sel_cat (a b : SyntacticObject) (c c' : Category)
    (hsel : a.features.find? isSel = some (Feature.Sel c))
    (hcat : b.features.find? isCat = some (Feature.Cat c')) :
    merge a b =
      if c = c' then
        Except.ok (SyntacticObject.internal a.label
          (a.features.filter (fun f => ! isSel f)
            ++ b.features.filter (fun f => ! isCat f))
          [a, b])
      else Except.error DerivationError.FeatureMismatch := by
  unfold merge
  rw [hsel, hcat]

mutual

/-- Lemma: `find_movement_target` is the first pre-order node carrying a matching
negative feature. -/
theorem fmt_eq_find (o : SyntacticObject) (k : Nat) :
    find_movement_target o k
      = (subtreeNodes o).find? (fun s => s.features.any (isNegIdx k)) := by
  cases o with
  | node l fs ch p =>
    by_cases hneg : fs.any (isNegIdx k) = true
    · rw [find_movement_target, if_pos hneg, subtreeNodes,
        List.find?_cons_of_pos _ (by simpa [SyntacticObject.features] using hneg)]
    · rw [find_movement_target, if_neg hneg, subtreeNodes,
        List.find?_cons_of_neg _ (by simpa [SyntacticObject.features] using hneg)]
      exact ftl_eq_find ch k

/-- List version of `fmt_eq_find`. -/
theorem ftl_eq_find (l : List SyntacticObject) (k : Nat) :
    findTargetList l k
      = (subtreeList l).find? (fun s => s.features.any (isNegIdx k)) := by
  cases l with
  | nil => rfl
  | cons o os =>
    rw [findTargetList, subtreeList, List.find?_append,
      ← fmt_eq_find o k, ← ftl_eq_find os k]
    cases find_movement_target o k <;> rfl

end

/-- A pair reported by `find_mergeable_pairs` has distinct indices. -/
theorem ne_of_mem_find_pairs {items : List SyntacticObject} {i j : Nat}
    (h : (i, j) ∈ find_mergeable_pairs items) : i ≠ j := by
  simp only [find_mergeable_pairs, pairsFor, List.mem_flatten, List.mem_map,
    List.mem_range] at h
  rcases h with ⟨l, ⟨i0, _, rfl⟩, hmem⟩
  simp only [List.mem_map, List.mem_filter, List.mem_range, Bool.and_eq_true,
    Bool.not_eq_true', decide_eq_false_iff_not] at hmem
  rcases hmem with ⟨j0, ⟨_, hne, _⟩, hpair⟩
  cases hpair
  exact hne

/-- When merging is possible, `step` reduces to a merge of the item at the
larger index (left operand) with the item at the smaller index (right
operand), its outcome pushed on success and propagated on failure, the two
chosen items removed either way. -/
theorem step_merge_eq (ws : Workspace) (i j : Nat) (rest : List (Nat × Nat))
    (h1 : ws.items ≠ [])
    (h2 : ws.memory_usage ≤ ws.memory_limit)
    (h3 : find_mergeable_pairs ws.items = (i, j) :: rest) :
    step ws =
      (match merge (ws.items.getD (max i j) default)
          (ws.items.getD (min i j) default) with
        | Except.ok m =>
          (⟨(ws.items.eraseIdx (max i j)).eraseIdx (min i j) ++ [m],
            ws.memory_limit, ws.step_count + 1⟩, Except.ok ())
        | Except.error e =>
          (⟨(ws.items.eraseIdx (max i j)).eraseIdx (min i j),
            ws.memory_limit, ws.step_count + 1⟩, Except.error e)) := by
  have hne : i ≠ j := ne_of_mem_find_pairs (h3 ▸ List.mem_cons_self (i, j) rest)
  have hb : (ws.items.eraseIdx (max i j)).getD (min i j) default
      = ws.items.getD (min i j) default :=
    getD_eraseIdx_lt _ _ _ (min_lt_max.mpr hne)
  have hnotlt : ¬ (ws.memory_limit < ws.memory_usage) := Nat.not_lt.mpr h2
  unfold step
  split
  · exact absurd (List.isEmpty_eq_true.mp ‹_›) h1
  · dsimp only
    split
    · exact absurd ‹_› hnotlt
    · rw [h3]
      dsimp only
      rw [hb]

/-! ## Claim theorems -/

/-- C1: parsing `"the student left"` against the test lexicon does NOT
succeed: the only combinable pair is `(0, 1)` ("the" selects "student"),
but `step` passes the larger-index item ("student") to `merge` as the left
operand, so the merge fails and `parse_sentence` returns `FeatureMismatch`
instead of a complete parse. This evaluates the code at the claim's
failing input. -/
theorem parse_the_student_left_mismatch :
    parse_sentence "the student left".toList test_lexicon
      = Except.error DerivationError.FeatureMismatch := by
  rfl

/-- C10: a workspace whose items are `[Sel N]`-leaf then `[Cat N]`-leaf:
`step` picks pair `(0, 1)`, removes both items, hands `merge` the
`[Cat N]` leaf as left operand (which has no selector), fails with
`FeatureMismatch`, and leaves the item list empty — two fewer objects,
nothing pushed. -/
theorem step_not_atomic_on_mismatch :
    wsMismatch.items.length = 2 ∧
    find_mergeable_pairs wsMismatch.items = [(0, 1)] ∧
    step wsMismatch = (⟨[], 100, 1⟩, Except.error DerivationError.FeatureMismatch) := by
  exact ⟨rfl, rfl, rfl⟩

/-- C2 (counterexample): on `wsMismatch` the combinable-pair list is
nonempty, yet `step` does not succeed and pushes nothing — it returns
`FeatureMismatch` with the two removed items lost. -/
theorem step_merge_success_cex :
    find_mergeable_pairs wsMismatch.items = [(0, 1)] ∧
    (step wsMismatch).2 = Except.error DerivationError.FeatureMismatch ∧
    (step wsMismatch).1.items = [] := by
  exact ⟨rfl, rfl, rfl⟩

/-- C2 (amended): if the combinable-pair list is nonempty, `step` takes its
first pair `(i, j)`, removes the items at indices `max i j` then `min i j`,
and attempts a combine whose left operand is the item that had the larger
original index and whose right operand the item that had the smaller one;
if the combine succeeds the result is pushed and `step` succeeds, otherwise
`step` returns the combine's error with the two items removed and nothing
pushed. -/
theorem step_merge_branch_spec (ws : Workspace) (i j : Nat)
    (rest : List (Nat × Nat))
    (h1 : ws.items ≠ [])
    (h2 : ws.memory_usage ≤ ws.memory_limit)
    (h3 : find_mergeable_pairs ws.items = (i, j) :: rest) :
    (∀ m, merge (ws.items.getD (max i j) default)
        (ws.items.getD (min i j) default) = Except.ok m →
      step ws = (⟨(ws.items.eraseIdx (max i j)).eraseIdx (min i j) ++ [m],
        ws.memory_limit, ws.step_count + 1⟩, Except.ok ())) ∧
    (∀ e, merge (ws.items.getD (max i j) default)
        (ws.items.getD (min i j) default) = Except.error e →
      step ws = (⟨(ws.items.eraseIdx (max i j)).eraseIdx (min i j),
        ws.memory_limit, ws.step_count + 1⟩, Except.error e)) := by
  constructor
  · intro m hm
    rw [step_merge_eq ws i j rest h1 h2 h3, hm]
  · intro e he
    rw [step_merge_eq ws i j rest h1 h2 h3, he]

/-- Witness for C2's theorem: on `wsMergeOk` (items `[Cat N]`-leaf then
"the"-leaf) the first pair is `(1, 0)`, the merge of "the" (larger index,
left) with the noun (smaller index, right) succeeds, and `step` pushes the
merged object. -/
theorem step_merge_branch_spec_witness :
    step wsMergeOk =
      (⟨[SyntacticObject.node Category.D [Feature.Cat Category.D]
          [theD_obj, catN_obj] none], 10, 1⟩, Except.ok ()) := by
  exact (step_merge_branch_spec wsMergeOk 1 0 []
    (by simp [wsMergeOk]) (by decide) rfl).1
    (SyntacticObject.node Category.D [Feature.Cat Category.D]
      [theD_obj, catN_obj] none) rfl

/-- C3 (counterexample): merging `selSel_obj` (features `[Sel N, Sel V]`)
with `catCat_obj` (features `[Cat N, Cat V]`) succeeds but the result's
feature list is empty: the extra `Sel V` and `Cat V` do NOT survive,
whereas removing exactly one matched selector and one matched category
would leave `[Sel V, Cat V]`. -/
theorem merge_drops_extra_features_cex :
    merge selSel_obj catCat_obj
      = Except.ok (SyntacticObject.node Category.D []
          [selSel_obj, catCat_obj] none) ∧
    selSel_obj.features.eraseP isSel ++ catCat_obj.features.eraseP isCat
      = [Feature.Sel Category.V, Feature.Cat Category.V] ∧
    ([] : List Feature) ≠ [Feature.Sel Category.V, Feature.Cat Category.V] := by
  exact ⟨rfl, rfl, by decide⟩

/-- C3 (amended): whenever `merge a b` succeeds, the result's label is
`a`'s label, its children are `[a, b]`, it has no phonological content,
and its feature sequence is `a`'s features with ALL Selector features
removed, concatenated with `b`'s features with ALL Category features
removed. -/
theorem merge_ok_spec (a b r : SyntacticObject)
    (h : merge a b = Except.ok r) :
    r.label = a.label ∧
    r.features = a.features.filter (fun f => ! isSel f)
      ++ b.features.filter (fun f => ! isCat f) ∧
    r.children = [a, b] ∧ r.phon = none := by
  cases hsel : a.features.find? isSel with
  | none => rw [merge_eq_no_sel a b hsel] at h; exact Except.noConfusion h
  | some f =>
    obtain ⟨c, rfl⟩ := exists_of_find_isSel hsel
    cases hcat : b.features.find? isCat with
    | none => rw [merge_eq_no_cat a b c hsel hcat] at h; exact Except.noConfusion h
    | some g =>
      obtain ⟨c', rfl⟩ := exists_of_find_isCat hcat
      rw [merge_eq_sel_cat a b c c' hsel hcat] at h
      by_cases he : c = c'
      · rw [if_pos he] at h
        injection h with h
        subst h
        exact ⟨rfl, rfl, rfl, rfl⟩
      · rw [if_neg he] at h
        exact Except.noConfusion h

/-- Witness for C3's theorem at `selSel_obj`, `catCat_obj`. -/
theorem merge_ok_spec_witness :
    (SyntacticObject.node Category.D [] [selSel_obj, catCat_obj] none).label
        = selSel_obj.label ∧
    (SyntacticObject.node Category.D [] [selSel_obj, catCat_obj] none).features
        = selSel_obj.features.filter (fun f => ! isSel f)
          ++ catCat_obj.features.filter (fun f => ! isCat f) ∧
    (SyntacticObject.node Category.D [] [selSel_obj, catCat_obj] none).children
        = [selSel_obj, catCat_obj] ∧
    (SyntacticObject.node Category.D [] [selSel_obj, catCat_obj] none).phon
        = none := by
  exact merge_ok_spec selSel_obj catCat_obj
    (SyntacticObject.node Category.D [] [selSel_obj, catCat_obj] none) rfl

/-- C4 (counterexample): `selN_obj` has first (and only) selector `Sel N`
and `catVN_obj` does contain a `Cat N` feature, yet `merge` fails with
`FeatureMismatch` because only `catVN_obj`'s FIRST category feature
(`Cat V`) is inspected. -/
theorem merge_contains_cat_cex :
    selN_obj.features.find? isSel = some (Feature.Sel Category.N) ∧
    Feature.Cat Category.N ∈ catVN_obj.features ∧
    merge selN_obj catVN_obj = Except.error DerivationError.FeatureMismatch := by
  exact ⟨rfl, by decide, rfl⟩

/-- C4 (amended): `merge a b` fails with `FeatureMismatch` whenever `a`
carries no Selector feature; only the first Selector of `a` (in stored
order) is inspected, and `merge` succeeds exactly when `b`'s FIRST
Category feature (in stored order) names the same category as `a`'s first
Selector; every failure of `merge` is a `FeatureMismatch`. -/
theorem merge_success_spec (a b : SyntacticObject) :
    ((∃ r, merge a b = Except.ok r) ↔
      ∃ c, a.features.find? isSel = some (Feature.Sel c) ∧
           b.features.find? isCat = some (Feature.Cat c)) ∧
    (∀ e, merge a b = Except.error e → e = DerivationError.FeatureMismatch) := by
  cases hsel : a.features.find? isSel with
  | none =>
    rw [merge_eq_no_sel a b hsel]
    constructor
    · constructor
      · rintro ⟨r, hr⟩
        exact Except.noConfusion hr
      · rintro ⟨c, hc, -⟩
        exact Option.noConfusion hc
    · intro e he
      injection he with he
      exact he.symm
  | some f =>
    obtain ⟨c, rfl⟩ := exists_of_find_isSel hsel
    cases hcat : b.features.find? isCat with
    | none =>
      rw [merge_eq_no_cat a b c hsel hcat]
      constructor
      · constructor
        · rintro ⟨r, hr⟩
          exact Except.noConfusion hr
        · rintro ⟨c', hc', hcat'⟩
          exact Option.noConfusion hcat'
      · intro e he
        injection he with he
        exact he.symm
    | some g =>
      obtain ⟨c', rfl⟩ := exists_of_find_isCat hcat
      rw [merge_eq_sel_cat a b c c' hsel hcat]
      by_cases he : c = c'
      · subst he
        rw [if_pos rfl]
        constructor
        · constructor
          · intro _
            exact ⟨c, rfl, rfl⟩
          · intro _
            exact ⟨_, rfl⟩
        · intro e he'
          exact Except.noConfusion he'
      · rw [if_neg he]
        constructor
        · constructor
          · rintro ⟨r, hr⟩
            exact Except.noConfusion hr
          · rintro ⟨c'', hc'', hcat''⟩
            injection hc'' with hc''
            injection hcat'' with hcat''
            injection hc'' with hc''
            injection hcat'' with hcat''
            exact absurd (hc''.trans hcat''.symm) he
        · intro e he'
          injection he' with he'
          exact he'.symm

/-- Witness for C4's theorem: the success direction at `selN_obj`,
`catN_obj` (first selector `Sel N`, first category `Cat N`). -/
theorem merge_success_spec_witness :
    ∃ r, merge selN_obj catN_obj = Except.ok r := by
  exact (merge_success_spec selN_obj catN_obj).1.mpr ⟨Category.N, rfl, rfl⟩

/-- C5 (counterexample): on `posPosNeg_obj` (features
`[Pos 1, Pos 1, Neg 1]`) displace succeeds, but the new root's feature
list is `[Neg 1]`: BOTH `Pos 1` features were removed, whereas removing
exactly one (the triggering one) would leave `[Pos 1, Neg 1]`. -/
theorem move_removes_all_pos_cex :
    move_operation posPosNeg_obj
      = Except.ok (SyntacticObject.node Category.D [Feature.Neg 1]
          [SyntacticObject.node Category.D [Feature.Pos 1, Feature.Pos 1] [] none,
           posPosNeg_obj] none) ∧
    posPosNeg_obj.features.eraseP Feature.is_positive
      = [Feature.Pos 1, Feature.Neg 1] ∧
    [Feature.Neg 1] ≠ [Feature.Pos 1, Feature.Neg 1] := by
  exact ⟨rfl, rfl, by decide⟩

/-- C5 (amended): if the first positive feature of `obj` is `Pos k` and
`t` is the first node of `obj`'s tree in pre-order carrying a negative
feature of index `k`, then displace returns a new root with `obj`'s label,
`obj`'s features with EVERY `Pos k` feature removed, and children
`[t', obj]` where `t'` is `t` with EVERY `Neg k` feature removed and the
second child is `obj` itself, completely unmodified (the target stays
embedded and is duplicated). -/
theorem move_ok_spec (obj t : SyntacticObject) (k : Nat)
    (h1 : obj.features.find? Feature.is_positive = some (Feature.Pos k))
    (h2 : (subtreeNodes obj).find? (fun s => s.features.any (isNegIdx k)) = some t) :
    move_operation obj = Except.ok (SyntacticObject.node obj.label
      (obj.features.filter (fun f => ! isPosIdx k f))
      [setFeatures t (t.features.filter (fun f => ! isNegIdx k f)), obj]
      none) := by
  unfold move_operation
  rw [h1]
  dsimp only [Feature.movement_index]
  rw [fmt_eq_find, h2]
  rfl

/-- Witness for C5's theorem at `posPosNeg_obj` (its own movement target). -/
theorem move_ok_spec_witness :
    move_operation posPosNeg_obj
      = Except.ok (SyntacticObject.node posPosNeg_obj.label
          (posPosNeg_obj.features.filter (fun f => ! isPosIdx 1 f))
          [setFeatures posPosNeg_obj
            (posPosNeg_obj.features.filter (fun f => ! isNegIdx 1 f)),
           posPosNeg_obj] none) := by
  exact move_ok_spec posPosNeg_obj posPosNeg_obj 1 rfl rfl

/-- C6: displace fails with `NoValidOperations` if and only if either
`obj` carries no positive feature, or no node of `obj`'s subtree
(pre-order, `obj` included) carries a negative feature whose index matches
the first positive feature found on `obj`. -/
theorem move_fails_iff (obj : SyntacticObject) :
    move_operation obj = Except.error DerivationError.NoValidOperations ↔
      ((∀ f ∈ obj.features, f.is_positive = false) ∨
       ∃ k, obj.features.find? Feature.is_positive = some (Feature.Pos k) ∧
            ∀ t ∈ subtreeNodes obj, t.features.any (isNegIdx k) = false) := by
  cases hpos : obj.features.find? Feature.is_positive with
  | none =>
    unfold move_operation
    rw [hpos]
    constructor
    · intro _
      left
      intro f hf
      simpa using List.find?_eq_none.mp hpos f hf
    · intro _
      rfl
  | some f =>
    obtain ⟨k, rfl⟩ := exists_of_find_is_positive hpos
    unfold move_operation
    rw [hpos]
    dsimp only [Feature.movement_index]
    rw [fmt_eq_find]
    cases htgt : (subtreeNodes obj).find? (fun s => s.features.any (isNegIdx k)) with
    | none =>
      constructor
      · intro _
        right
        refine ⟨k, rfl, fun t ht => ?_⟩
        simpa using List.find?_eq_none.mp htgt t ht
      · intro _
        rfl
    | some t =>
      constructor
      · intro h
        exact absurd h (fun hh => Except.noConfusion hh)
      · rintro (hall | ⟨k', hk', hnone⟩)
        · have hmem := List.mem_of_find?_eq_some hpos
          have hfalse := hall _ hmem
          simp [Feature.is_positive] at hfalse
        · injection hk' with hk'
          injection hk' with hk'
          subst hk'
          have hmem := List.mem_of_find?_eq_some htgt
          have hp := List.find?_some htgt
          rw [hnone t hmem] at hp
          exact Bool.noConfusion hp

/-- Witness for C6 at the featureless leaf `noFeat_obj`. -/
theorem move_fails_iff_witness :
    (∀ f ∈ noFeat_obj.features, f.is_positive = false) ∨
    ∃ k, noFeat_obj.features.find? Feature.is_positive = some (Feature.Pos k) ∧
         ∀ t ∈ subtreeNodes noFeat_obj, t.features.any (isNegIdx k) = false := by
  exact (move_fails_iff noFeat_obj).mp rfl

/-- C7: `derive` performs at most `n` iterations (the step counter grows by
at most `n`); each iteration first returns the single complete object if
the workspace holds exactly one, otherwise calls `step`, breaking (not
erroring) on `NoValidOperations` and propagating any other failure
immediately; with fuel `0` (loop exhausted) and after the stuck-break it
returns the single complete object if present and fails with
`NoValidOperations` otherwise. -/
theorem derive_spec (ws ws2 : Workspace) (n : Nat) (e : DerivationError) :
    (derive ws 0 =
      if ws.is_successful then (ws, Except.ok (ws.items.getD 0 default))
      else (ws, Except.error DerivationError.NoValidOperations)) ∧
    (ws.is_successful = true →
      derive ws (n + 1) = (ws, Except.ok (ws.items.getD 0 default))) ∧
    (ws.is_successful = false → step ws = (ws2, Except.ok ()) →
      derive ws (n + 1) = derive ws2 n) ∧
    (ws.is_successful = false →
      step ws = (ws2, Except.error DerivationError.NoValidOperations) →
      derive ws (n + 1) =
        if ws2.is_successful then (ws2, Except.ok (ws2.items.getD 0 default))
        else (ws2, Except.error DerivationError.NoValidOperations)) ∧
    (ws.is_successful = false → e ≠ DerivationError.NoValidOperations →
      step ws = (ws2, Except.error e) →
      derive ws (n + 1) = (ws2, Except.error e)) ∧
    (derive ws n).1.step_count ≤ ws.step_count + n := by
  refine ⟨?_, ?_, ?_, ?_, ?_, derive_count n ws⟩
  · rw [derive]
    rfl
  · intro hs
    rw [derive, if_pos hs]
  · intro hs hstep
    rw [derive, if_neg (by simp [hs]), hstep]
  · intro hs hstep
    rw [derive, if_neg (by simp [hs]), hstep]
    simp [finishDerive]
  · intro hs hne hstep
    rw [derive, if_neg (by simp [hs]), hstep]
    simp [hne]

/-- Witness for C7's theorem: one iteration on an empty workspace
propagates the non-`NoValidOperations` failure `EmptyWorkspace`. -/
theorem derive_spec_witness :
    derive ⟨[], 10, 0⟩ 1 = (⟨[], 10, 0⟩, Except.error DerivationError.EmptyWorkspace) := by
  exact (derive_spec ⟨[], 10, 0⟩ ⟨[], 10, 0⟩ 0 DerivationError.EmptyWorkspace).2.2.2.2.1
    rfl (by decide) rfl

/-- C8: `step` on an empty item list fails with `EmptyWorkspace` leaving
the workspace (counter included) unchanged; on a nonempty list the counter
is incremented by exactly one, and if the node-count sum exceeds the
memory limit `step` then fails with `MemoryLimitExceeded` with the item
list untouched, before any combine or displace is attempted; in
particular, any workspace with memory limit `1` holding two or more leaf
objects fails exactly this way. -/
theorem step_guard_spec (ws : Workspace) (items : List SyntacticObject) (cnt : Nat) :
    (ws.items = [] → step ws = (ws, Except.error DerivationError.EmptyWorkspace)) ∧
    (ws.items ≠ [] → (step ws).1.step_count = ws.step_count + 1) ∧
    (ws.items ≠ [] → ws.memory_limit < ws.memory_usage →
      step ws = (⟨ws.items, ws.memory_limit, ws.step_count + 1⟩,
        Except.error DerivationError.MemoryLimitExceeded)) ∧
    (2 ≤ items.length → (∀ o ∈ items, o.children = []) →
      step ⟨items, 1, cnt⟩ = (⟨items, 1, cnt + 1⟩,
        Except.error DerivationError.MemoryLimitExceeded)) := by
  refine ⟨step_empty ws, step_count_succ ws, step_mem_fail ws, ?_⟩
  intro hlen hleaf
  have hne : items ≠ [] := by
    intro h
    subst h
    simp at hlen
  have husage : (⟨items, 1, cnt⟩ : Workspace).memory_usage = items.length := by
    simpa [Workspace.memory_usage] using sizeList_of_leaves items hleaf
  refine step_mem_fail ⟨items, 1, cnt⟩ hne ?_
  have h1 : 1 < items.length := by omega
  simpa [husage] using h1

/-- Witness for C8's theorem: memory limit `1` with two leaves. -/
theorem step_guard_spec_witness :
    step ⟨[noFeat_obj, noFeat_obj], 1, 0⟩
      = (⟨[noFeat_obj, noFeat_obj], 1, 1⟩,
         Except.error DerivationError.MemoryLimitExceeded) := by
  exact (step_guard_spec ⟨[noFeat_obj, noFeat_obj], 1, 0⟩
    [noFeat_obj, noFeat_obj] 0).2.2.2 (by decide)
    (by
      intro o ho
      simp at ho
      subst ho
      rfl)

/-! ## Whitespace-splitting lemmas for the aⁿbⁿ pattern functions -/

/-- Scanning a space-free prefix just accumulates it (reversed). -/
theorem splitWSAux_token (tok rest acc : List Char) (h : ∀ c ∈ tok, c ≠ ' ') :
    splitWSAux (tok ++ rest) acc = splitWSAux rest (tok.reverse ++ acc) := by
  induction tok generalizing acc with
  | nil => simp
  | cons c cs ih =>
    have hc : c ≠ ' ' := h c (List.mem_cons_self c cs)
    rw [List.cons_append]
    simp only [splitWSAux]
    rw [if_neg hc, ih (c :: acc) (fun x hx => h x (List.mem_cons_of_mem c hx))]
    simp [List.append_assoc]

/-- Splitting a nonempty space-free token followed by a space yields the
token and the split of the remainder. -/
theorem splitWS_token_sep (tok rest : Str) (hne : tok ≠ [])
    (h : ∀ c ∈ tok, c ≠ ' ') :
    splitWS (tok ++ ' ' :: rest) = tok :: splitWS rest := by
  unfold splitWS
  rw [splitWSAux_token tok (' ' :: rest) [] h, List.append_nil]
  have hacc : (tok.reverse).isEmpty = false := by
    simpa [List.reverse_eq_nil_iff] using hne
  simp [splitWSAux, hacc]

/-- Splitting a single nonempty space-free token yields just that token. -/
theorem splitWS_single (tok : Str) (hne : tok ≠ [])
    (h : ∀ c ∈ tok, c ≠ ' ') :
    splitWS tok = [tok] := by
  unfold splitWS
  have haux := splitWSAux_token tok [] [] h
  rw [List.append_nil, List.append_nil] at haux
  rw [haux]
  have hacc : (tok.reverse).isEmpty = false := by
    simpa [List.reverse_eq_nil_iff] using hne
  simp [splitWSAux, hacc]

/-- Splitting a space-join of good tokens followed by a space and a rest. -/
theorem splitWS_joinSp_append (ts : List Str) (rest : Str)
    (hts : ∀ t ∈ ts, t ≠ [] ∧ ∀ c ∈ t, c ≠ ' ') (hne : ts ≠ []) :
    splitWS (joinSp ts ++ ' ' :: rest) = ts ++ splitWS rest := by
  induction ts with
  | nil => exact absurd rfl hne
  | cons t ts ih =>
    cases ts with
    | nil =>
      simp only [joinSp]
      rw [splitWS_token_sep t rest (hts t (List.mem_cons_self t [])).1
        (hts t (List.mem_cons_self t [])).2]
      rfl
    | cons t2 ts2 =>
      simp only [joinSp]
      rw [List.append_assoc, List.cons_append,
        splitWS_token_sep t _ (hts t (List.mem_cons_self t (t2 :: ts2))).1
          (hts t (List.mem_cons_self t (t2 :: ts2))).2,
        ih (fun x hx => hts x (List.mem_cons_of_mem t hx)) (List.cons_ne_nil t2 ts2)]
      rfl

/-- Splitting a space-join of good tokens recovers the tokens. -/
theorem splitWS_joinSp (ts : List Str)
    (hts : ∀ t ∈ ts, t ≠ [] ∧ ∀ c ∈ t, c ≠ ' ') :
    splitWS (joinSp ts) = ts := by
  cases ts with
  | nil => rfl
  | cons t ts =>
    cases ts with
    | nil =>
      exact splitWS_single t (hts t (List.mem_cons_self t [])).1
        (hts t (List.mem_cons_self t [])).2
    | cons t2 ts2 =>
      simp only [joinSp]
      rw [splitWS_token_sep t _ (hts t (List.mem_cons_self t (t2 :: ts2))).1
          (hts t (List.mem_cons_self t (t2 :: ts2))).2,
        splitWS_joinSp (t2 :: ts2) (fun x hx => hts x (List.mem_cons_of_mem t hx))]

/-- Space-joining an append of nonempty lists of tokens. -/
theorem joinSp_append (A B : List Str) (hA : A ≠ []) (hB : B ≠ []) :
    joinSp (A ++ B) = joinSp A ++ ' ' :: joinSp B := by
  induction A with
  | nil => exact absurd rfl hA
  | cons a A ih =>
    cases A with
    | nil =>
      cases B with
      | nil => exact absurd rfl hB
      | cons b B2 => simp [joinSp]
    | cons a2 A2 =>
      rw [List.cons_append, List.cons_append]
      have hmid : (a2 :: A2) ++ B = a2 :: (A2 ++ B) := List.cons_append a2 A2 B
      calc joinSp (a :: a2 :: (A2 ++ B))
          = a ++ ' ' :: joinSp (a2 :: (A2 ++ B)) := by simp only [joinSp]
        _ = a ++ ' ' :: joinSp ((a2 :: A2) ++ B) := by rw [hmid]
        _ = a ++ ' ' :: (joinSp (a2 :: A2) ++ ' ' :: joinSp B) := by
            rw [ih (List.cons_ne_nil a2 A2)]
        _ = joinSp (a :: a2 :: A2) ++ ' ' :: joinSp B := by
            simp only [joinSp]
            simp [List.append_assoc]

/-- Every token of a replicated `"a"` list is good. -/
theorem replicate_a_good (k : Nat) :
    ∀ t ∈ List.replicate k "a".toList, t ≠ [] ∧ ∀ c ∈ t, c ≠ ' ' := by
  intro t ht
  rw [List.eq_of_mem_replicate ht]
  exact ⟨by decide, by decide⟩

/-- Every token of a replicated `"b"` list is good. -/
theorem replicate_b_good (k : Nat) :
    ∀ t ∈ List.replicate k "b".toList, t ≠ [] ∧ ∀ c ∈ t, c ≠ ' ' := by
  intro t ht
  rw [List.eq_of_mem_replicate ht]
  exact ⟨by decide, by decide⟩

/-- The whitespace tokens of `generate_an_bn n` are `n` copies of `"a"`
then `n` copies of `"b"`. -/
theorem generate_an_bn_tokens (n : Nat) :
    splitWS (generate_an_bn n)
      = List.replicate n "a".toList ++ List.replicate n "b".toList := by
  cases n with
  | zero => rfl
  | succ n =>
    unfold generate_an_bn
    rw [if_neg (Nat.succ_ne_zero n)]
    rw [splitWS_joinSp_append _ _ (replicate_a_good (n + 1))
      (by simp [List.replicate_succ])]
    rw [splitWS_joinSp _ (replicate_b_good (n + 1))]

/-- Any string that splits into `n` `"a"` tokens then `n` `"b"` tokens is
accepted by `is_an_bn_pattern`. -/
theorem is_an_bn_tokens (s : Str) (n : Nat)
    (h : splitWS s = List.replicate n "a".toList ++ List.replicate n "b".toList) :
    is_an_bn_pattern s = true := by
  cases n with
  | zero =>
    unfold is_an_bn_pattern
    rw [h]
    rfl
  | succ n =>
    have hlenA : (List.replicate (n + 1) "a".toList).length = n + 1 :=
      List.length_replicate _ _
    have hlenB : (List.replicate (n + 1) "b".toList).length = n + 1 :=
      List.length_replicate _ _
    have htake := @List.take_left' Str (List.replicate (n + 1) "a".toList)
      (List.replicate (n + 1) "b".toList) (n + 1) hlenA
    have hdrop := @List.drop_left' Str (List.replicate (n + 1) "a".toList)
      (List.replicate (n + 1) "b".toList) (n + 1) hlenA
    have hempty : (List.replicate (n + 1) "a".toList
        ++ List.replicate (n + 1) "b".toList).isEmpty = false := by
      rw [List.isEmpty_eq_false]
      simp [List.replicate_succ]
    have hlen : (List.replicate (n + 1) "a".toList
        ++ List.replicate (n + 1) "b".toList).length = 2 * (n + 1) := by
      rw [List.length_append, hlenA, hlenB]
      omega
    have hdiv : 2 * (n + 1) / 2 = n + 1 := by omega
    unfold is_an_bn_pattern
    rw [h]
    dsimp only
    rw [hempty, hlen, hdiv]
    rw [if_neg (by simp), if_neg (by omega), htake, hdrop, Bool.and_eq_true]
    constructor
    · rw [List.all_eq_true]
      intro t ht
      simpa using List.eq_of_mem_replicate ht
    · rw [List.all_eq_true]
      intro t ht
      simpa using List.eq_of_mem_replicate ht

/-- C9: for every `n`, `generate_pattern "an_bn" n` succeeds with
`generate_an_bn n`; that text is accepted by `is_an_bn_pattern`, splits
into exactly `n` `"a"` tokens followed by `n` `"b"` tokens, equals the
single-space join of those tokens, and is empty for `n = 0`. -/
theorem generate_pattern_an_bn_spec (n : Nat) :
    generate_pattern "an_bn".toList n = Except.ok (generate_an_bn n) ∧
    is_an_bn_pattern (generate_an_bn n) = true ∧
    splitWS (generate_an_bn n)
      = List.replicate n "a".toList ++ List.replicate n "b".toList ∧
    generate_an_bn n
      = joinSp (List.replicate n "a".toList ++ List.replicate n "b".toList) ∧
    generate_an_bn 0 = [] := by
  refine ⟨?_, is_an_bn_tokens _ n (generate_an_bn_tokens n),
    generate_an_bn_tokens n, ?_, rfl⟩
  · unfold generate_pattern
    rw [if_pos rfl]
  · cases n with
    | zero => rfl
    | succ n =>
      unfold generate_an_bn
      rw [if_neg (Nat.succ_ne_zero n),
        joinSp_append _ _ (by simp [List.replicate_succ])
          (by simp [List.replicate_succ])]

end AtomicLang
